import Mathlib

/-
Verification of the BORG proxy routing core: a shallow embedding of the
registry and round-robin selector (src/borg/proxy.py), the token codec
(genkey.py and ProxyService decryption), the auth gate, the header
rewriting of the forwarding engine, and the discovery reconciler
(src/borg/k8s_discovery.py), together with theorems settling the
stated behavioural properties.
-/

namespace Borg

/-- Python exception values that the embedded code can raise:
FastAPI HTTPException with status and detail, RuntimeError, KeyError
and TypeError. -/
inductive PyErr where
  | httpException (status : Nat) (detail : String)
  | runtimeError (msg : String)
  | keyError (msg : String)
  | typeError (msg : String)
deriving DecidableEq, Repr

/-- Python dict lookup d.get(k): first (and for a dict, only) binding of k
in an insertion-ordered association list. -/
def dictGet {β : Type} : List (String × β) → String → Option β
  | [], _ => none
  | kv :: rest, k => if kv.1 = k then some kv.2 else dictGet rest k

/-- Python dict assignment d[k] = v: replace in place if the key exists,
otherwise append at the end (insertion order). -/
def dictSet {β : Type} : List (String × β) → String → β → List (String × β)
  | [], k, v => [(k, v)]
  | kv :: rest, k, v => if kv.1 = k then (k, v) :: rest else kv :: dictSet rest k v

/-- Python dict d.pop(k, None): drop the binding of k if present,
otherwise leave the dict unchanged. -/
def dictPop {β : Type} : List (String × β) → String → List (String × β)
  | [], _ => []
  | kv :: rest, k => if kv.1 = k then rest else kv :: dictPop rest k

/-- RoundRobinSet (proxy.py lines 21-49): an insertion-ordered mapping from
endpoint to its attributes (here the single attribute actually used, the
apikey string), plus the cycling state. The Python code keeps an
itertools.cycle over the dict items and rebuilds it on every membership
change; that is embedded as the underlying list plus a cursor that is
reset to 0 by every membership operation, next returning the entry at
cursor mod length. -/
structure RoundRobinSet where
  data : List (String × String)
  cursor : Nat
deriving DecidableEq, Repr

/-- A freshly constructed RoundRobinSet: empty dict, fresh cycle state. -/
def RoundRobinSet.empty : RoundRobinSet := ⟨[], 0⟩

/-- RoundRobinSet.add (proxy.py lines 32-35): add or replace the endpoint,
then rebuild the cycle (cursor back to the start of insertion order). -/
def RoundRobinSet.add (s : RoundRobinSet) (endpoint apikey : String) : RoundRobinSet :=
  ⟨dictSet s.data endpoint apikey, 0⟩

/-- RoundRobinSet.rmv (proxy.py lines 37-40): remove the endpoint, ignoring
it when absent, then rebuild the cycle. -/
def RoundRobinSet.rmv (s : RoundRobinSet) (endpoint : String) : RoundRobinSet :=
  ⟨dictPop s.data endpoint, 0⟩

/-- RoundRobinSet.next (proxy.py lines 42-49): RuntimeError on an empty set,
otherwise the next (endpoint, attrs) pair of the cycle, advancing the
cursor. -/
def RoundRobinSet.next (s : RoundRobinSet) :
    Except PyErr ((String × String) × RoundRobinSet) :=
  if s.data = [] then .error (.runtimeError "RoundRobinSet is empty")
  else .ok (s.data[s.cursor % s.data.length]!, ⟨s.data, s.cursor + 1⟩)

/-- n successive calls to RoundRobinSet.next, collecting the returned pairs. -/
def RoundRobinSet.run : RoundRobinSet → Nat → Except PyErr (List (String × String) × RoundRobinSet)
  | s, 0 => .ok ([], s)
  | s, n + 1 =>
    match s.next with
    | .error e => .error e
    | .ok (p, s₁) =>
      match s₁.run n with
      | .error e => .error e
      | .ok (ps, s₂) => .ok (p :: ps, s₂)

/-- The registry ProxyService._instances: model name to bucket. -/
abbrev Registry := List (String × RoundRobinSet)

/-- ProxyService.add_instance (proxy.py lines 123-137): for every model,
setdefault an empty bucket and add the endpoint with its apikey. -/
def addInstance (reg : Registry) (endpoint apikey : String) (models : List String) : Registry :=
  models.foldl
    (fun r model =>
      dictSet r model (((dictGet r model).getD RoundRobinSet.empty).add endpoint apikey))
    reg

/-- ProxyService.remove_instance (proxy.py lines 139-151). The log line
joins the models with a comma before anything else happens, so the call
with models = None raises TypeError there; with an explicit list, the
endpoint is removed from every named bucket that exists, and emptied
buckets are left in the registry. -/
def removeInstance (reg : Registry) (endpoint : String) (models : Option (List String)) :
    Except PyErr Registry :=
  match models with
  | none => .error (.typeError "can only join an iterable (not NoneType)")
  | some ms =>
    .ok (ms.foldl
      (fun r model =>
        match dictGet r model with
        | none => r
        | some bucket => dictSet r model (bucket.rmv endpoint))
      reg)

/-- ProxyService.pick_endpoint (proxy.py lines 153-166): KeyError when no
bucket exists, otherwise bucket.next() with its possible RuntimeError. -/
def pickEndpoint (reg : Registry) (model : String) :
    Except PyErr ((String × String) × Registry) :=
  match dictGet reg model with
  | none => .error (.keyError ("No instances for model " ++ model))
  | some bucket =>
    match bucket.next with
    | .error e => .error e
    | .ok (p, bucket₁) => .ok (p, dictSet reg model bucket₁)

/-- ProxyService._choose (proxy.py lines 168-174): HTTPException 404 when no
bucket exists, otherwise bucket.next() with its possible RuntimeError. -/
def choose (reg : Registry) (model : String) :
    Except PyErr ((String × String) × Registry) :=
  match dictGet reg model with
  | none => .error (.httpException 404 ("Unknown model: " ++ model))
  | some bucket =>
    match bucket.next with
    | .error e => .error e
    | .ok (p, bucket₁) => .ok (p, dictSet reg model bucket₁)

/-- Insert into a sorted list, keeping order (helper for sorted below). -/
def insertSorted (x : String) : List String → List String
  | [] => [x]
  | y :: ys => if x ≤ y then x :: y :: ys else y :: insertSorted x ys

/-- The Python builtin sorted on a list of strings. -/
def pySorted (l : List String) : List String := l.foldr insertSorted []

/-- ProxyService.list_models (proxy.py lines 176-191): the model ids listed,
in sorted order; every key of the registry appears, with no emptiness
filtering. -/
def listModels (reg : Registry) : List String := pySorted (reg.map Prod.fst)

/-- The character of the urlsafe base64 alphabet for a sextet value
(A-Z, a-z, 0-9, minus, underscore), as its ASCII code. -/
def b64c (n : Nat) : Nat :=
  if n < 26 then 65 + n
  else if n < 52 then 97 + (n - 26)
  else if n < 62 then 48 + (n - 52)
  else if n = 62 then 45
  else 95

/-- The sextet value of a urlsafe base64 alphabet character (ASCII code),
none for a character outside the alphabet. -/
def b64d (c : Nat) : Option Nat :=
  if 65 ≤ c ∧ c ≤ 90 then some (c - 65)
  else if 97 ≤ c ∧ c ≤ 122 then some (26 + (c - 97))
  else if 48 ≤ c ∧ c ≤ 57 then some (52 + (c - 48))
  else if c = 45 then some 62
  else if c = 95 then some 63
  else none

/-- base64.urlsafe_b64encode over a byte string: groups of three bytes map
to four alphabet characters, a trailing group of one or two bytes is
padded with the ASCII 61 padding character. -/
def b64urlEncode : List Nat → List Nat
  | [] => []
  | [a] => [b64c (a / 4), b64c (a % 4 * 16), 61, 61]
  | [a, b] => [b64c (a / 4), b64c (a % 4 * 16 + b / 16), b64c (b % 16 * 4), 61]
  | a :: b :: c :: rest =>
    b64c (a / 4) :: b64c (a % 4 * 16 + b / 16) :: b64c (b % 16 * 4 + c / 64) ::
      b64c (c % 64) :: b64urlEncode rest

/-- base64.urlsafe_b64decode over a byte string: four characters at a time,
with the final group allowed one or two padding characters; anything
else (wrong length, character outside the alphabet, stray padding)
fails. -/
def b64urlDecode : List Nat → Option (List Nat)
  | [] => some []
  | w :: x :: y :: z :: rest =>
    if rest = [] ∧ y = 61 ∧ z = 61 then
      match b64d w, b64d x with
      | some a, some b => some [a * 4 + b / 16]
      | _, _ => none
    else if rest = [] ∧ z = 61 then
      match b64d w, b64d x, b64d y with
      | some a, some b, some c => some [a * 4 + b / 16, b % 16 * 16 + c / 4]
      | _, _, _ => none
    else
      match b64d w, b64d x, b64d y, b64d z with
      | some a, some b, some c, some d =>
        match b64urlDecode rest with
        | some tail => some ((a * 4 + b / 16) :: (b % 16 * 16 + c / 4) :: (c % 4 * 64 + d) :: tail)
        | none => none
      | _, _, _, _ => none
  | _ => none

/-- The nonce length shared by genkey.py and ProxyService (both 12). -/
def NONCE_LEN : Nat := 12

/-- The external AES-256-GCM authenticated-encryption collaborator
(cryptography.hazmat AESGCM), specified by its contract: decryption
inverts encryption under the same key and nonce, the ciphertext carries
a 16-byte tag, and ciphertexts are byte strings. -/
structure AEAD where
  encrypt : List Nat → List Nat → List Nat → List Nat
  decrypt : List Nat → List Nat → List Nat → Option (List Nat)
  decrypt_encrypt : ∀ key nonce msg, decrypt key nonce (encrypt key nonce msg) = some msg
  encrypt_length : ∀ key nonce msg, (encrypt key nonce msg).length = msg.length + 16
  encrypt_bytes : ∀ key nonce msg, (∀ b ∈ msg, b < 256) →
    ∀ b ∈ encrypt key nonce msg, b < 256

/-- genkey.py _make_token (lines 129-133): encrypt the bytes of
prefix-then-username under the key with a fresh 12-byte nonce (the
nonce is a parameter here, standing for the random draw), and return
base64url of nonce-then-ciphertext-with-tag. Strings are embedded as
their UTF-8 byte lists. -/
def makeToken (A : AEAD) (username key pfx nonce : List Nat) : List Nat :=
  b64urlEncode (nonce ++ A.encrypt key nonce (pfx ++ username))

/-- ProxyService._decrypt_token (proxy.py lines 79-94): base64url-decode
the token, reject buffers not longer than the nonce, split off the
nonce and authenticated-decrypt the rest; every failure is caught and
reported as the same HTTPException 401. -/
def decryptToken (A : AEAD) (tokenB64 key : List Nat) : Except PyErr (List Nat) :=
  match b64urlDecode tokenB64 with
  | none => .error (.httpException 401 "Invalid API key")
  | some buf =>
    if buf.length ≤ NONCE_LEN then .error (.httpException 401 "Invalid API key")
    else
      match A.decrypt key (buf.take NONCE_LEN) (buf.drop NONCE_LEN) with
      | none => .error (.httpException 401 "Invalid API key")
      | some plaintext => .ok plaintext

/-- The fixed anonymous identity, the UTF-8 bytes of ANONYMOUS. -/
def ANONYMOUS : List Nat := [65, 78, 79, 78, 89, 77, 79, 85, 83]

/-- ProxyService.require_auth (proxy.py lines 96-121), over UTF-8 byte
lists. A falsy auth key (absent or empty) accepts everything as
ANONYMOUS. Otherwise a falsy or badly prefixed Authorization header is
a 401 Missing API key; the remainder of the header after the bearer
scheme is decrypted (any decryption failure propagating as its own
401); the plaintext must start with the configured auth prefix or the
request is a 401 Invalid API key; the suffix after the auth prefix is
the returned identity. -/
def requireAuth (A : AEAD) (authKey : Option (List Nat)) (bearerPfx authPfx : List Nat)
    (authHeader : Option (List Nat)) : Except PyErr (List Nat) :=
  match authKey with
  | none => .ok ANONYMOUS
  | some key =>
    if key = [] then .ok ANONYMOUS
    else
      match authHeader with
      | none => .error (.httpException 401 "Missing API key")
      | some auth =>
        if auth.isEmpty || !(List.isPrefixOf bearerPfx auth) then
          .error (.httpException 401 "Missing API key")
        else
          match decryptToken A (auth.drop bearerPfx.length) key with
          | .error e => .error e
          | .ok plaintext =>
            if List.isPrefixOf authPfx plaintext then .ok (plaintext.drop authPfx.length)
            else .error (.httpException 401 "Invalid API key")

/-- The Python str.lower() method on the ASCII header names it is applied
to (proxy.py lines 212 and 256). -/
def pyLower (s : String) : String := String.mk (s.data.map Char.toLower)

/-- The hop-by-hop header names excluded from forwarding
(proxy.py lines 205-207 and 249-251). -/
def excludedHeaders : List String :=
  ["host", "content-length", "connection", "keep-alive", "proxy-authenticate",
   "proxy-authorization", "te", "trailers", "transfer-encoding", "upgrade"]

/-- The outbound header map built by ProxyService.proxy_request
(proxy.py lines 204-215): every inbound header whose lowercased name is
not in the exclusion set, then the authorization entry overwritten with
the Bearer form of the endpoint apikey. -/
def proxyRequestHeaders (headers : List (String × String)) (apikey : String) :
    List (String × String) :=
  dictSet (headers.filter fun kv => !(excludedHeaders.contains (pyLower kv.1)))
    "authorization" ("Bearer " ++ apikey)

/-- The outbound header map built by ProxyService.proxy_request_stream
(proxy.py lines 249-259), textually the same construction as the
buffered path. -/
def proxyRequestStreamHeaders (headers : List (String × String)) (apikey : String) :
    List (String × String) :=
  dictSet (headers.filter fun kv => !(excludedHeaders.contains (pyLower kv.1)))
    "authorization" ("Bearer " ++ apikey)

/-- A discovery snapshot: model name to the set of endpoint URLs serving
it, the set embedded as a list queried only through membership. -/
abbrev Epmap := List (String × List String)

/-- One iteration of the inner loop of K8SDiscoveryService._epdiff
(k8s_discovery.py lines 148-152): when the endpoint is not yet a key of
new, bind it to a fresh singleton list, otherwise append the model to
its list in place. -/
def epdiffAddModel (new : Epmap) (ep m : String) : Epmap :=
  match dictGet new ep with
  | none => new ++ [(ep, [m])]
  | some ms => dictSet new ep (ms ++ [m])

/-- The inner loop of _epdiff over the endpoints of one model: endpoints
also present for that model in b are skipped, the others get m recorded. -/
def epdiffEps (b : Epmap) (m : String) : List String → Epmap → Epmap
  | [], new => new
  | ep :: rest, new =>
    epdiffEps b m rest
      (if ((dictGet b m).getD []).contains ep then new else epdiffAddModel new ep m)

/-- The outer loop of _epdiff over the models of a. -/
def epdiffGo (b : Epmap) : Epmap → Epmap → Epmap
  | [], new => new
  | (m, eps) :: arest, new => epdiffGo b arest (epdiffEps b m eps new)

/-- K8SDiscoveryService._epdiff (k8s_discovery.py lines 142-154): for every
model of a and every endpoint of that model not present for the model
in b, record the model under the endpoint. -/
def epdiff (a b : Epmap) : Epmap := epdiffGo b a []

/-- The removal loop of K8SDiscoveryService.update (lines 170-171): one
remove_instance call per endpoint of the removal diff, with its model
list. -/
def removeAll : Registry → Epmap → Except PyErr Registry
  | reg, [] => .ok reg
  | reg, (ep, ms) :: rest =>
    match removeInstance reg ep (some ms) with
    | .error e => .error e
    | .ok reg₁ => removeAll reg₁ rest

/-- The addition loop of K8SDiscoveryService.update (lines 173-174): one
add_instance call per endpoint of the addition diff, with the
placeholder EMPTY credential. -/
def addAll : Registry → Epmap → Registry
  | reg, [] => reg
  | reg, (ep, ms) :: rest => addAll (addInstance reg ep "EMPTY" ms) rest

/-- K8SDiscoveryService.update (k8s_discovery.py lines 156-176), given the
previous snapshot and the freshly discovered one (the discovery query
itself is the external cluster collaborator): compute both diffs, apply
all removals, then all additions, and return the new registry together
with the stored snapshot, replaced wholesale by the fresh one. -/
def updateRegistry (old fresh : Epmap) (reg : Registry) : Except PyErr (Registry × Epmap) :=
  match removeAll reg (epdiff old fresh) with
  | .error e => .error e
  | .ok reg₁ => .ok (addAll reg₁ (epdiff fresh old), fresh)

/-- A concrete authenticated-encryption scheme satisfying the AEAD
contract, used to instantiate the abstract collaborator in witnesses:
the ciphertext is the message followed by a 16-byte zero tag. -/
def toyAead : AEAD where
  encrypt := fun _ _ msg => msg ++ List.replicate 16 0
  decrypt := fun _ _ ct =>
    if ct.length < 16 then none
    else if ct.drop (ct.length - 16) = List.replicate 16 0 then some (ct.take (ct.length - 16))
    else none
  decrypt_encrypt := by
    intro key nonce msg
    have hlen : (msg ++ List.replicate 16 0).length = msg.length + 16 := by simp
    have h1 : ¬ (msg ++ List.replicate 16 0).length < 16 := by omega
    have h2 : (msg ++ List.replicate 16 0).length - 16 = msg.length := by omega
    simp only [h1, if_false, h2, List.drop_left, List.take_left, if_true]
  encrypt_length := by intro key nonce msg; simp
  encrypt_bytes := by
    intro key nonce msg hm b hb
    rcases List.mem_append.mp hb with h | h
    · exact hm b h
    · have := List.eq_of_mem_replicate h
      omega

/-! Helper lemmas about the base64url codec. -/

theorem b64d_b64c : ∀ n < 64, b64d (b64c n) = some n := by decide

theorem b64c_ne_pad (n : Nat) : b64c n ≠ 61 := by
  unfold b64c
  split <;> try omega
  split <;> try omega
  split <;> try omega
  split <;> omega

theorem b64url_roundtrip : ∀ bs : List Nat, (∀ b ∈ bs, b < 256) →
    b64urlDecode (b64urlEncode bs) = some bs := by
  intro bs
  induction bs using b64urlEncode.induct with
  | case1 =>
    intro _
    rfl
  | case2 a =>
    intro h
    have ha : a < 256 := h a (by simp)
    have h1 : a / 4 < 64 := by omega
    have h2 : a % 4 * 16 < 64 := by omega
    simp only [b64urlEncode, b64urlDecode, b64d_b64c _ h1, b64d_b64c _ h2]
    simp
    omega
  | case3 a b =>
    intro h
    have ha : a < 256 := h a (by simp)
    have hb : b < 256 := h b (by simp)
    have h1 : a / 4 < 64 := by omega
    have h2 : a % 4 * 16 + b / 16 < 64 := by omega
    have h3 : b % 16 * 4 < 64 := by omega
    simp only [b64urlEncode, b64urlDecode, b64d_b64c _ h1, b64d_b64c _ h2, b64d_b64c _ h3,
      b64c_ne_pad]
    simp
    omega
  | case4 a b c rest ih =>
    intro h
    have ha : a < 256 := h a (by simp)
    have hb : b < 256 := h b (by simp)
    have hc : c < 256 := h c (by simp)
    have hrest : ∀ x ∈ rest, x < 256 := fun x hx => h x (by simp [hx])
    have h1 : a / 4 < 64 := by omega
    have h2 : a % 4 * 16 + b / 16 < 64 := by omega
    have h3 : b % 16 * 4 + c / 64 < 64 := by omega
    have h4 : c % 64 < 64 := by omega
    simp only [b64urlEncode, b64urlDecode, b64d_b64c _ h1, b64d_b64c _ h2, b64d_b64c _ h3,
      b64d_b64c _ h4, b64c_ne_pad, ih hrest]
    simp
    omega

/-! Claim theorems for the token codec. -/

/-- Claim C5: for every prefix, username, 32-byte-key AEAD instance and fresh
12-byte nonce, decoding the token minted by genkey._make_token with the
same key recovers exactly the plaintext prefix followed by the
username; the token is base64url of the 12-byte nonce followed by the
ciphertext and tag of the authenticated encryption of the payload. -/
theorem token_roundtrip (A : AEAD) (username key pfx nonce : List Nat)
    (hn : nonce.length = NONCE_LEN) (hnb : ∀ b ∈ nonce, b < 256)
    (hpb : ∀ b ∈ pfx, b < 256) (hub : ∀ b ∈ username, b < 256) :
    decryptToken A (makeToken A username key pfx nonce) key = .ok (pfx ++ username) := by
  have hmsg : ∀ b ∈ pfx ++ username, b < 256 := by
    intro b hb
    rcases List.mem_append.mp hb with h | h
    exacts [hpb b h, hub b h]
  have hct := A.encrypt_bytes key nonce (pfx ++ username) hmsg
  have hall : ∀ b ∈ nonce ++ A.encrypt key nonce (pfx ++ username), b < 256 := by
    intro b hb
    rcases List.mem_append.mp hb with h | h
    exacts [hnb b h, hct b h]
  have hdec := b64url_roundtrip _ hall
  have hlen : (nonce ++ A.encrypt key nonce (pfx ++ username)).length
      = NONCE_LEN + ((pfx ++ username).length + 16) := by
    simp [A.encrypt_length, hn]
  have hnle : ¬ (nonce ++ A.encrypt key nonce (pfx ++ username)).length ≤ NONCE_LEN := by
    rw [hlen]
    omega
  have htake : (nonce ++ A.encrypt key nonce (pfx ++ username)).take NONCE_LEN = nonce := by
    rw [← hn, List.take_left]
  have hdrop : (nonce ++ A.encrypt key nonce (pfx ++ username)).drop NONCE_LEN
      = A.encrypt key nonce (pfx ++ username) := by
    rw [← hn, List.drop_left]
  unfold decryptToken makeToken
  simp only [hdec]
  rw [if_neg hnle, htake, hdrop, A.decrypt_encrypt]

/-- Closed witness for token_roundtrip at a concrete prefix, username, key
and nonce, with the toy AEAD instance. -/
theorem token_roundtrip_witness :
    decryptToken toyAead (makeToken toyAead [1] [] [2] (List.replicate 12 0)) [] = .ok [2, 1] :=
  token_roundtrip toyAead [1] [] [2] (List.replicate 12 0) (by decide)
    (by decide) (by decide) (by decide)

/-- Claim C6: token decoding fails with one and the same 401 error, with an
identical message, in all three failure cases: the token does not
base64url-decode, the decoded buffer is not longer than the 12-byte
nonce, or authenticated decryption fails; and every error the routine
can produce is that single 401, so the caller has no oracle separating
the failure modes. -/
theorem decrypt_token_uniform_error (A : AEAD) (tok key : List Nat) :
    (b64urlDecode tok = none →
      decryptToken A tok key = .error (.httpException 401 "Invalid API key")) ∧
    (∀ buf, b64urlDecode tok = some buf → buf.length ≤ NONCE_LEN →
      decryptToken A tok key = .error (.httpException 401 "Invalid API key")) ∧
    (∀ buf, b64urlDecode tok = some buf → ¬ buf.length ≤ NONCE_LEN →
      A.decrypt key (buf.take NONCE_LEN) (buf.drop NONCE_LEN) = none →
      decryptToken A tok key = .error (.httpException 401 "Invalid API key")) ∧
    (∀ e, decryptToken A tok key = .error e → e = .httpException 401 "Invalid API key") := by
  refine ⟨?_, ?_, ?_, ?_⟩
  · intro h
    unfold decryptToken
    rw [h]
  · intro buf hb hlen
    unfold decryptToken
    simp only [hb]
    rw [if_pos hlen]
  · intro buf hb hlen hd
    unfold decryptToken
    simp only [hb]
    rw [if_neg hlen, hd]
  · intro e he
    unfold decryptToken at he
    cases hb : b64urlDecode tok with
    | none =>
      rw [hb] at he
      exact (Except.error.inj he).symm
    | some buf =>
      simp only [hb] at he
      by_cases hlen : buf.length ≤ NONCE_LEN
      · rw [if_pos hlen] at he
        exact (Except.error.inj he).symm
      · rw [if_neg hlen] at he
        cases hd : A.decrypt key (buf.take NONCE_LEN) (buf.drop NONCE_LEN) with
        | none =>
          rw [hd] at he
          exact (Except.error.inj he).symm
        | some pt =>
          rw [hd] at he
          exact Except.noConfusion he

/-- Closed witness for decrypt_token_uniform_error: a token that does not
base64url-decode is rejected with the single 401 error. -/
theorem decrypt_token_uniform_error_witness :
    decryptToken toyAead [0] [] = .error (.httpException 401 "Invalid API key") :=
  (decrypt_token_uniform_error toyAead [0] []).1 (by decide)

/-- Claim C7: with no auth key configured (absent, or the falsy empty key) every
request is accepted with the fixed anonymous identity; with a key, an
absent, empty or wrongly prefixed Authorization header is rejected 401,
a decoding failure propagates as its own 401, a plaintext that does not
start with the auth prefix is rejected 401, and on success the identity
returned is exactly the plaintext suffix after the auth prefix. -/
theorem require_auth_spec (A : AEAD) (key bearerPfx authPfx : List Nat) :
    (∀ hdr, requireAuth A none bearerPfx authPfx hdr = .ok ANONYMOUS) ∧
    (∀ hdr, requireAuth A (some []) bearerPfx authPfx hdr = .ok ANONYMOUS) ∧
    (key ≠ [] → requireAuth A (some key) bearerPfx authPfx none =
      .error (.httpException 401 "Missing API key")) ∧
    (∀ auth, key ≠ [] → (auth.isEmpty || !(List.isPrefixOf bearerPfx auth)) = true →
      requireAuth A (some key) bearerPfx authPfx (some auth) =
        .error (.httpException 401 "Missing API key")) ∧
    (∀ auth e, key ≠ [] → (auth.isEmpty || !(List.isPrefixOf bearerPfx auth)) = false →
      decryptToken A (auth.drop bearerPfx.length) key = .error e →
      requireAuth A (some key) bearerPfx authPfx (some auth) = .error e) ∧
    (∀ auth pt, key ≠ [] → (auth.isEmpty || !(List.isPrefixOf bearerPfx auth)) = false →
      decryptToken A (auth.drop bearerPfx.length) key = .ok pt →
      List.isPrefixOf authPfx pt = false →
      requireAuth A (some key) bearerPfx authPfx (some auth) =
        .error (.httpException 401 "Invalid API key")) ∧
    (∀ auth pt, key ≠ [] → (auth.isEmpty || !(List.isPrefixOf bearerPfx auth)) = false →
      decryptToken A (auth.drop bearerPfx.length) key = .ok pt →
      List.isPrefixOf authPfx pt = true →
      requireAuth A (some key) bearerPfx authPfx (some auth) =
        .ok (pt.drop authPfx.length)) := by
  refine ⟨fun hdr => rfl, fun hdr => rfl, ?_, ?_, ?_, ?_, ?_⟩
  · intro hk
    simp [requireAuth, hk]
  · intro auth hk hcond
    simp [requireAuth, hk, hcond]
  · intro auth e hk hcond hd
    simp [requireAuth, hk, hcond, hd]
  · intro auth pt hk hcond hd hpfx
    simp [requireAuth, hk, hcond, hd, hpfx]
  · intro auth pt hk hcond hd hpfx
    simp [requireAuth, hk, hcond, hd, hpfx]

/-- Closed witness for require_auth_spec: with a configured key and no
Authorization header, the request is rejected with the 401. -/
theorem require_auth_spec_witness :
    requireAuth toyAead (some [1]) [66] [80] none =
      .error (.httpException 401 "Missing API key") :=
  (require_auth_spec toyAead [1] [66] [80]).2.2.1 (by decide)

/-! Helper lemmas about the Python dict embedding. -/

theorem dictGet_dictSet_self {β : Type} (l : List (String × β)) (k : String) (v : β) :
    dictGet (dictSet l k v) k = some v := by
  induction l with
  | nil => simp [dictGet, dictSet]
  | cons kv rest ih =>
    by_cases h : kv.1 = k
    · simp [dictSet, h, dictGet]
    · simp [dictSet, h, dictGet, ih]

theorem dictGet_dictSet_ne {β : Type} (l : List (String × β)) (k k' : String) (v : β)
    (h : k' ≠ k) : dictGet (dictSet l k v) k' = dictGet l k' := by
  induction l with
  | nil => simp [dictGet, dictSet, Ne.symm h]
  | cons kv rest ih =>
    by_cases hk : kv.1 = k
    · have hk' : ¬ kv.1 = k' := by
        rw [hk]
        exact fun hh => h hh.symm
      simp [dictSet, hk, dictGet, Ne.symm h, hk']
    · simp [dictSet, hk, dictGet, ih]

theorem dictGet_none_of_no_key {β : Type} (l : List (String × β)) (k : String)
    (h : ∀ kv ∈ l, kv.1 ≠ k) : dictGet l k = none := by
  induction l with
  | nil => rfl
  | cons kv rest ih =>
    simp only [dictGet, if_neg (h kv (by simp))]
    exact ih fun kv' hkv' => h kv' (by simp [hkv'])

theorem dictGet_filter_header (l : List (String × String)) (k : String) :
    dictGet (l.filter fun kv => !(excludedHeaders.contains (pyLower kv.1))) k =
      if pyLower k ∈ excludedHeaders then none else dictGet l k := by
  induction l with
  | nil =>
    simp only [List.filter_nil, dictGet]
    split <;> rfl
  | cons kv rest ih =>
    by_cases hp : pyLower kv.1 ∈ excludedHeaders
    · have hb : excludedHeaders.contains (pyLower kv.1) = true := by simpa using hp
      rw [List.filter_cons, hb]
      simp only [Bool.not_true]
      rw [if_neg (by simp)]
      by_cases hk : kv.1 = k
      · subst hk
        rw [ih, if_pos hp, if_pos hp]
      · rw [ih]
        rw [show dictGet (kv :: rest) k = dictGet rest k from by simp [dictGet, hk]]
    · have hb : excludedHeaders.contains (pyLower kv.1) = false := by simpa using hp
      rw [List.filter_cons, hb]
      simp only [Bool.not_false, if_true]
      by_cases hk : kv.1 = k
      · subst hk
        simp [dictGet, hp]
      · simp only [dictGet, if_neg hk]
        exact ih

theorem excludedHeaders_lower : ∀ s ∈ excludedHeaders, pyLower s = s := by decide

/-- Claim C8: for every inbound header map (with the lowercase names the HTTP
layer normalises to) and selected endpoint, the outbound header map of
the buffered path holds the Bearer form of the endpoint stored apikey
under authorization, holds every other header exactly when its name is
outside the hop-by-hop exclusion set, with the inbound value, and the
streaming path builds the identical map, so the caller bearer token
never reaches the upstream. -/
theorem forward_headers_spec (headers : List (String × String)) (apikey : String)
    (hlow : ∀ kv ∈ headers, pyLower kv.1 = kv.1) :
    dictGet (proxyRequestHeaders headers apikey) "authorization" =
      some ("Bearer " ++ apikey) ∧
    (∀ k, k ≠ "authorization" →
      dictGet (proxyRequestHeaders headers apikey) k =
        if k ∈ excludedHeaders then none else dictGet headers k) ∧
    proxyRequestStreamHeaders headers apikey = proxyRequestHeaders headers apikey := by
  refine ⟨dictGet_dictSet_self _ _ _, ?_, rfl⟩
  intro k hk
  unfold proxyRequestHeaders
  rw [dictGet_dictSet_ne _ _ _ _ hk, dictGet_filter_header]
  by_cases hmem : k ∈ excludedHeaders
  · have hlk : pyLower k = k := excludedHeaders_lower k hmem
    rw [if_pos (by rw [hlk]; exact hmem), if_pos hmem]
  · by_cases hlmem : pyLower k ∈ excludedHeaders
    · rw [if_pos hlmem, if_neg hmem]
      refine (dictGet_none_of_no_key _ _ ?_).symm
      intro kv hkv heq
      apply hmem
      have h1 := hlow kv hkv
      rw [heq] at h1
      exact h1 ▸ hlmem
    · rw [if_neg hlmem, if_neg hmem]

/-- Closed witness for forward_headers_spec: a concrete inbound map with a
caller bearer token and a host header. -/
theorem forward_headers_spec_witness :
    dictGet (proxyRequestHeaders [("host", "h"), ("authorization", "Bearer caller"),
      ("accept", "application/json")] "sk-backend") "authorization" =
      some ("Bearer " ++ "sk-backend") :=
  (forward_headers_spec [("host", "h"), ("authorization", "Bearer caller"),
    ("accept", "application/json")] "sk-backend" (by decide)).1

/-! Round-robin selection theorems. -/

theorem run_formula (data : List (String × String)) (h : data ≠ []) :
    ∀ (n cursor : Nat), RoundRobinSet.run ⟨data, cursor⟩ n =
      .ok (((List.range n).map fun i => data[(cursor + i) % data.length]!),
        ⟨data, cursor + n⟩) := by
  intro n
  induction n with
  | zero =>
    intro cursor
    simp [RoundRobinSet.run]
  | succ n ih =>
    intro cursor
    simp only [RoundRobinSet.run, RoundRobinSet.next, if_neg h, ih (cursor + 1)]
    rw [List.range_succ_eq_map, List.map_cons, List.map_map]
    have hmap : ((List.range n).map fun i => data[(cursor + 1 + i) % data.length]!) =
        (List.range n).map ((fun i => data[(cursor + i) % data.length]!) ∘ Nat.succ) := by
      apply List.map_congr_left
      intro i _
      simp only [Function.comp_apply, Nat.succ_eq_add_one]
      have hidx : cursor + 1 + i = cursor + (i + 1) := by omega
      rw [hidx]
    rw [hmap]
    have hc : cursor + 1 + n = cursor + (n + 1) := by omega
    simp [hc]

theorem range_map_rotate (data : List (String × String)) (h : data ≠ []) (cursor : Nat) :
    ((List.range data.length).map fun i => data[(cursor + i) % data.length]!) =
      data.rotate (cursor % data.length) := by
  have hpos : 0 < data.length := List.length_pos.mpr h
  apply List.ext_getElem
  · simp
  · intro i h₁ h₂
    have hi : i < data.length := by simpa using h₁
    rw [List.getElem_map, List.getElem_range, List.getElem_rotate]
    have hlt : (cursor + i) % data.length < data.length := Nat.mod_lt _ hpos
    rw [getElem!_pos data _ hlt]
    congr 1
    conv_rhs => rw [Nat.add_comm, Nat.mod_add_mod]

/-- Claim C4: on a bucket whose membership is stable across the window, a window
of exactly N = length calls to next succeeds and returns the bucket
entries in strict cyclic rotation of insertion order starting at the
cursor; in particular the window is a permutation of the membership, so
every endpoint is returned exactly once before any repeats, and with
distinct endpoints the window has no duplicate. -/
theorem round_robin_cycle (s : RoundRobinSet) (h : s.data ≠ []) :
    s.run s.data.length =
      .ok (s.data.rotate (s.cursor % s.data.length), ⟨s.data, s.cursor + s.data.length⟩) ∧
    ((s.data.rotate (s.cursor % s.data.length)).map Prod.fst).Perm (s.data.map Prod.fst) ∧
    ((s.data.map Prod.fst).Nodup →
      ((s.data.rotate (s.cursor % s.data.length)).map Prod.fst).Nodup) := by
  obtain ⟨data, cursor⟩ := s
  simp only at h ⊢
  have hperm := (List.rotate_perm data (cursor % data.length)).map Prod.fst
  refine ⟨?_, hperm, fun hs => hperm.nodup_iff.mpr hs⟩
  rw [run_formula data h data.length cursor, range_map_rotate data h cursor]

/-- Closed witness for round_robin_cycle: a two-endpoint bucket mid-cycle
yields both endpoints, starting from the cursor. -/
theorem round_robin_cycle_witness :
    RoundRobinSet.run ⟨[("A", "k1"), ("B", "k2")], 1⟩ 2 =
      .ok ([("A", "k1"), ("B", "k2")].rotate (1 % 2), ⟨[("A", "k1"), ("B", "k2")], 1 + 2⟩) :=
  (round_robin_cycle ⟨[("A", "k1"), ("B", "k2")], 1⟩ (by decide)).1

theorem dictSet_ne_nil {β : Type} (l : List (String × β)) (k : String) (v : β) :
    dictSet l k v ≠ [] := by
  cases l with
  | nil => simp [dictSet]
  | cons kv rest =>
    by_cases h : kv.1 = k <;> simp [dictSet, h]

/-- Claim C10: every membership operation on a RoundRobinSet, including an add
that overwrites an already present endpoint and a rmv of a non-member,
rebuilds the cycling iterator: the cursor is reset, and the following
next call returns the entry at position zero of insertion order (the
earliest inserted remaining endpoint) rather than continuing from the
previous cursor. -/
theorem mutation_resets_rotation (s : RoundRobinSet) (e eRmv a : String) :
    (s.add e a).cursor = 0 ∧ (s.rmv eRmv).cursor = 0 ∧
    (s.add e a).next = .ok ((s.add e a).data[0]!, ⟨(s.add e a).data, 1⟩) ∧
    ((s.rmv eRmv).data ≠ [] →
      (s.rmv eRmv).next = .ok ((s.rmv eRmv).data[0]!, ⟨(s.rmv eRmv).data, 1⟩)) := by
  refine ⟨rfl, rfl, ?_, ?_⟩
  · have hne : (s.add e a).data ≠ [] := dictSet_ne_nil s.data e a
    unfold RoundRobinSet.next
    rw [if_neg hne]
    simp [RoundRobinSet.add]
  · intro hne
    unfold RoundRobinSet.next
    rw [if_neg hne]
    have : (s.rmv eRmv).cursor = 0 := rfl
    rw [this]
    simp

/-- Closed witness for mutation_resets_rotation: removing a non-member from
a mid-cycle bucket resets the rotation to the first inserted endpoint. -/
theorem mutation_resets_rotation_witness :
    (RoundRobinSet.rmv ⟨[("A", "k1"), ("B", "k2")], 5⟩ "C").data ≠ [] ∧
    (RoundRobinSet.rmv ⟨[("A", "k1"), ("B", "k2")], 5⟩ "C").next =
      .ok ((RoundRobinSet.rmv ⟨[("A", "k1"), ("B", "k2")], 5⟩ "C").data[0]!,
        ⟨(RoundRobinSet.rmv ⟨[("A", "k1"), ("B", "k2")], 5⟩ "C").data, 1⟩) :=
  ⟨by decide,
    (mutation_resets_rotation ⟨[("A", "k1"), ("B", "k2")], 5⟩ "x" "C" "y").2.2.2 (by decide)⟩

/-! Discovery reconciliation lemmas and theorem. -/

theorem dictGet_append {β : Type} (l l' : List (String × β)) (k : String) :
    dictGet (l ++ l') k =
      match dictGet l k with
      | some v => some v
      | none => dictGet l' k := by
  induction l with
  | nil => simp [dictGet]
  | cons kv rest ih =>
    by_cases h : kv.1 = k
    · simp [dictGet, h]
    · simp [dictGet, h, ih]

theorem epdiffAddModel_mem (new : Epmap) (ep0 m ep m' : String) :
    m' ∈ (dictGet (epdiffAddModel new ep0 m) ep).getD [] ↔
      m' ∈ (dictGet new ep).getD [] ∨ (m' = m ∧ ep = ep0) := by
  unfold epdiffAddModel
  cases hg : dictGet new ep0 with
  | none =>
    rw [dictGet_append]
    by_cases hep : ep = ep0
    · subst hep
      rw [hg]
      simp [dictGet]
    · cases hgep : dictGet new ep with
      | none =>
        simp only [hgep, dictGet]
        rw [if_neg (fun hh : ep0 = ep => hep hh.symm)]
        simp [hep]
      | some ms => simp [hgep, hep]
  | some ms =>
    by_cases hep : ep = ep0
    · subst hep
      rw [dictGet_dictSet_self, hg]
      simp [List.mem_append]
    · rw [dictGet_dictSet_ne _ _ _ _ hep]
      simp [hep]

theorem epdiffEps_mem (b : Epmap) (m : String) (eps : List String) :
    ∀ (new : Epmap) (ep m' : String),
      m' ∈ (dictGet (epdiffEps b m eps new) ep).getD [] ↔
        m' ∈ (dictGet new ep).getD [] ∨
          (m' = m ∧ ep ∈ eps ∧ ep ∉ (dictGet b m).getD []) := by
  induction eps with
  | nil =>
    intro new ep m'
    simp [epdiffEps]
  | cons ep0 rest ih =>
    intro new ep m'
    unfold epdiffEps
    by_cases hc : ((dictGet b m).getD []).contains ep0 = true
    · have hep0 : ep0 ∈ (dictGet b m).getD [] := by simpa using hc
      rw [if_pos hc, ih]
      constructor
      · rintro (hA | ⟨hm, hrest, hcond⟩)
        · exact Or.inl hA
        · exact Or.inr ⟨hm, List.mem_cons_of_mem _ hrest, hcond⟩
      · rintro (hA | ⟨hm, hcons, hcond⟩)
        · exact Or.inl hA
        · rcases List.mem_cons.mp hcons with heq | hrest
          · subst heq
            exact absurd hep0 hcond
          · exact Or.inr ⟨hm, hrest, hcond⟩
    · have hnot : ep0 ∉ (dictGet b m).getD [] := by simpa using hc
      rw [if_neg hc, ih, epdiffAddModel_mem]
      constructor
      · rintro ((hA | ⟨hm, hep⟩) | ⟨hm, hrest, hcond⟩)
        · exact Or.inl hA
        · subst hep
          exact Or.inr ⟨hm, List.mem_cons_self _ _, hnot⟩
        · exact Or.inr ⟨hm, List.mem_cons_of_mem _ hrest, hcond⟩
      · rintro (hA | ⟨hm, hcons, hcond⟩)
        · exact Or.inl (Or.inl hA)
        · rcases List.mem_cons.mp hcons with heq | hrest
          · exact Or.inl (Or.inr ⟨hm, heq⟩)
          · exact Or.inr ⟨hm, hrest, hcond⟩

theorem epdiffGo_mem (b : Epmap) :
    ∀ (ar new : Epmap) (ep m' : String),
      m' ∈ (dictGet (epdiffGo b ar new) ep).getD [] ↔
        m' ∈ (dictGet new ep).getD [] ∨
          ∃ eps, (m', eps) ∈ ar ∧ ep ∈ eps ∧ ep ∉ (dictGet b m').getD [] := by
  intro ar
  induction ar with
  | nil =>
    intro new ep m'
    simp [epdiffGo]
  | cons hd arest ih =>
    intro new ep m'
    obtain ⟨m, eps⟩ := hd
    unfold epdiffGo
    rw [ih, epdiffEps_mem]
    constructor
    · rintro ((hA | ⟨hm, hep, hcond⟩) | ⟨eps', hmem, hep, hcond⟩)
      · exact Or.inl hA
      · subst hm
        exact Or.inr ⟨eps, List.mem_cons_self _ _, hep, hcond⟩
      · exact Or.inr ⟨eps', List.mem_cons_of_mem _ hmem, hep, hcond⟩
    · rintro (hA | ⟨eps', hmem, hep, hcond⟩)
      · exact Or.inl (Or.inl hA)
      · rcases List.mem_cons.mp hmem with heq | hmem'
        · rw [Prod.mk.injEq] at heq
        
          obtain ⟨h1, h2⟩ := heq
          subst h1
          subst h2
          exact Or.inl (Or.inr ⟨rfl, hep, hcond⟩)
        · exact Or.inr ⟨eps', hmem', hep, hcond⟩

theorem dictGet_eq_some_iff_mem {β : Type} (l : List (String × β)) (k : String) (v : β)
    (hnd : (l.map Prod.fst).Nodup) : dictGet l k = some v ↔ (k, v) ∈ l := by
  induction l with
  | nil => simp [dictGet]
  | cons kv rest ih =>
    simp only [List.map_cons, List.nodup_cons] at hnd
    obtain ⟨hk, hnd₁⟩ := hnd
    by_cases h : kv.1 = k
    · subst h
      constructor
      · intro hv
        have hv₂ : kv.2 = v := by simpa [dictGet] using hv
        rw [← hv₂]
        simp
      · intro hmem
        rcases List.mem_cons.mp hmem with heq | hmem₁
        · have hv₂ : v = kv.2 := congrArg Prod.snd heq
          simp [dictGet, hv₂]
        · exact absurd (List.mem_map_of_mem Prod.fst hmem₁) (by simpa using hk)
    · simp only [dictGet, if_neg h, List.mem_cons, ih hnd₁]
      constructor
      · intro hmem
        exact Or.inr hmem
      · rintro (heq | hmem)
        · exact absurd (congrArg Prod.fst heq).symm h
        · exact hmem

/-- Claim C9: one reconciliation pass computes the symmetric diff grouped by
endpoint, an endpoint mapping to exactly the models for which it is in
the first snapshot but not the second (used in both directions), and
update applies every removal before every addition, one registry call
per endpoint per direction, replacing the stored snapshot wholesale; in
particular after a cycle reporting endpoint A for model m1 and a second
cycle reporting endpoint B for m1, the registry holds exactly B for m1
with A removed. -/
theorem discovery_reconcile (a b : Epmap) (ha : (a.map Prod.fst).Nodup) :
    (∀ ep m, m ∈ (dictGet (epdiff a b) ep).getD [] ↔
      ∃ eps, dictGet a m = some eps ∧ ep ∈ eps ∧ ep ∉ (dictGet b m).getD []) ∧
    updateRegistry [] [("m1", ["A"])] [] =
      .ok ([("m1", ⟨[("A", "EMPTY")], 0⟩)], [("m1", ["A"])]) ∧
    updateRegistry [("m1", ["A"])] [("m1", ["B"])] [("m1", ⟨[("A", "EMPTY")], 0⟩)] =
      .ok ([("m1", ⟨[("B", "EMPTY")], 0⟩)], [("m1", ["B"])]) := by
  refine ⟨?_, rfl, rfl⟩
  intro ep m
  unfold epdiff
  rw [epdiffGo_mem]
  simp only [dictGet, Option.getD_none, List.not_mem_nil, false_or]
  constructor
  · rintro ⟨eps, hmem, h1, h2⟩
    exact ⟨eps, (dictGet_eq_some_iff_mem a m eps ha).mpr hmem, h1, h2⟩
  · rintro ⟨eps, hget, h1, h2⟩
    exact ⟨eps, (dictGet_eq_some_iff_mem a m eps ha).mp hget, h1, h2⟩

/-- Closed witness for discovery_reconcile: the first reconciliation cycle
of the scenario, starting from an empty registry and empty snapshot. -/
theorem discovery_reconcile_witness :
    updateRegistry [] [("m1", ["A"])] [] =
      .ok ([("m1", ⟨[("A", "EMPTY")], 0⟩)], [("m1", ["A"])]) :=
  (discovery_reconcile [] [] (by decide)).2.1

/-! Evidence theorems for the registry code bugs. -/

/-- Claim C1 evidence: removing the only endpoint of m1 leaves the now empty
bucket in the registry, so m1 still appears in list_models and lookups;
the remove_instance code never deletes an emptied bucket, contradicting
the spec invariant and the repository tests. -/
theorem remove_last_endpoint_keeps_bucket :
    removeInstance (addInstance [] "http://e1:8000" "k1" ["m1"]) "http://e1:8000"
      (some ["m1"]) = .ok [("m1", ⟨[], 0⟩)] ∧
    dictGet [("m1", (⟨[], 0⟩ : RoundRobinSet))] "m1" = some ⟨[], 0⟩ ∧
    listModels [("m1", ⟨[], 0⟩)] = ["m1"] :=
  ⟨rfl, rfl, rfl⟩

/-- Claim C2 evidence: a reachable registry state with an empty bucket for m1
makes both _choose and pick_endpoint fail with the RuntimeError from
RoundRobinSet.next, not the 404 HTTPException produced for an absent
bucket, so the two cases are not treated identically. -/
theorem empty_bucket_not_unknown_model :
    removeInstance (addInstance [] "http://e2:8000" "k2" ["m2"]) "http://e2:8000"
      (some ["m2"]) = .ok [("m2", ⟨[], 0⟩)] ∧
    choose [("m2", ⟨[], 0⟩)] "m2" = .error (.runtimeError "RoundRobinSet is empty") ∧
    pickEndpoint [("m2", ⟨[], 0⟩)] "m2" =
      .error (.runtimeError "RoundRobinSet is empty") ∧
    choose [] "m2" = .error (.httpException 404 ("Unknown model: " ++ "m2")) ∧
    decide (PyErr.runtimeError "RoundRobinSet is empty" =
      PyErr.httpException 404 ("Unknown model: " ++ "m2")) = false :=
  ⟨rfl, rfl, rfl, rfl, by decide⟩

/-- Claim C3 evidence: calling remove_instance with the models argument omitted
raises a TypeError from the log line joining None, before any removal
happens, instead of removing the endpoint from every bucket. -/
theorem remove_models_none_raises :
    removeInstance [("m1", ⟨[("http://e1:8000", "k1")], 0⟩)] "http://e1:8000" none =
      .error (.typeError "can only join an iterable (not NoneType)") :=
  rfl

end Borg
